import Mathlib

/-!
Verification development for the MTGA draft in-game overlay and ML rating
modules (`src/ingame_overlay.py`, `src/ml_rating.py`).

The Python code is shallowly embedded: pure helpers become Lean functions,
the stateful overlay and model-manager objects become explicit state records
with state-passing functions, Python floats are modelled as rationals, and
caught exceptions are modelled as `Option` results.  External collaborators
(the Win32 window queries, the tkinter badge surfaces, the filesystem and the
ONNX runtime) are modelled as explicit parameters.
-/

namespace MTGAOverlay

/-- A card record as consumed by the overlay: a Python dict with optional
fields.  `rarity = none` models a dict without a `rarity` key (the code reads
it with default `"common"`); `color_identity = none` models absence of the
`color_identity` key. -/
structure Card where
  name : String
  rarity : Option String
  types : List String
  colors : List String
  color_identity : Option (List String)
deriving DecidableEq

/-- Embedding of `_RARITY_ORDER.get(r, 3)`: mythic 0, rare 1, uncommon 2, common 3,
anything else 3. -/
def _RARITY_ORDER (r : String) : Nat :=
  if r = "mythic" then 0
  else if r = "rare" then 1
  else if r = "uncommon" then 2
  else if r = "common" then 3
  else 3

/-- Embedding of `_COLOR_FLAG.get(c, 0)`: W=1, U=2, B=4, R=8, G=16, unknown 0. -/
def _COLOR_FLAG (c : String) : Nat :=
  if c = "W" then 1
  else if c = "U" then 2
  else if c = "B" then 4
  else if c = "R" then 8
  else if c = "G" then 16
  else 0

/-- The 32-entry `_COLOR_SORT_TABLE` array mapping a color-flag mask to its
sort position.  Every index 0..31 is assigned in the source; the default
branch is unreachable for masked input. -/
def _COLOR_SORT_TABLE (i : Nat) : Nat :=
  match i with
  | 1 => 0 | 2 => 1 | 4 => 2 | 8 => 3 | 16 => 4
  | 3 => 5 | 5 => 6 | 6 => 7 | 10 => 8 | 12 => 9
  | 20 => 10 | 24 => 11 | 9 => 12 | 17 => 13 | 18 => 14
  | 7 => 15 | 14 => 16 | 28 => 17 | 25 => 18 | 19 => 19
  | 13 => 20 | 26 => 21 | 21 => 22 | 11 => 23 | 22 => 24
  | 15 => 25 | 30 => 26 | 29 => 27 | 27 => 28 | 23 => 29
  | 31 => 30 | 0 => 31
  | _ => 0

/-- Embedding of `_card_color_flags`: bitmask of the card colors, preferring
`color_identity` for artifacts and lands when that key is present. -/
def _card_color_flags (card : Card) : Nat :=
  let is_artifact_or_land := card.types.any fun t => t == "Artifact" || t == "Land"
  let colors :=
    if is_artifact_or_land && card.color_identity.isSome then
      card.color_identity.getD []
    else card.colors
  colors.foldl (fun flag c => flag ||| _COLOR_FLAG c) 0

/-- Python `str.isdigit()` restricted to the ASCII digits that occur in arena
identifiers: nonempty and every character a digit. -/
def pyIsDigit (s : String) : Bool :=
  !s.isEmpty && s.data.all Char.isDigit

/-- The sort key tuple returned by `mtga_draft_sort_key`:
(rarity, land flag, color order, name). -/
abbrev SortKey := Nat × Nat × Nat × String

/-- Embedding of `mtga_draft_sort_key(card)`: digit-only names get the forced key
`(3, 1, 32, name)`; otherwise (rarity rank, land flag, color rank, name). -/
def mtga_draft_sort_key (card : Card) : SortKey :=
  if pyIsDigit card.name then (3, 1, 32, card.name)
  else
    (_RARITY_ORDER (card.rarity.getD "common"),
     if card.types.contains "Land" then 1 else 0,
     _COLOR_SORT_TABLE (_card_color_flags card &&& 0x1F),
     card.name)

/-- Python tuple comparison `key1 <= key2`: lexicographic on the four
components, strings compared lexicographically by code point. -/
def keyLE (a b : SortKey) : Bool :=
  decide (toLex (a.1, toLex (a.2.1, toLex (a.2.2.1, a.2.2.2)))
        ≤ toLex (b.1, toLex (b.2.1, toLex (b.2.2.1, b.2.2.2))))

/-- Comparison of two cards by their draft-pack sort keys. -/
def cardLE (a b : Card) : Bool :=
  keyLE (mtga_draft_sort_key a) (mtga_draft_sort_key b)

/-- Embedding of `sorted(cards, key=mtga_draft_sort_key)`: a stable sort by the draft-pack
key. -/
def mtga_sort (l : List Card) : List Card :=
  l.mergeSort cardLE

/-- Calibration parameters read from `configuration.features` (fractions of
the client area, `ingame_grid_left` etc., with overridable defaults). -/
structure Calibration where
  ingame_grid_left : ℚ
  ingame_grid_right : ℚ
  ingame_grid_top : ℚ
  ingame_grid_bottom : ℚ
deriving DecidableEq

/-- The `GRID_LAYOUTS` dict mapping pack size to (columns, rows). -/
def GRID_LAYOUTS : List (ℤ × (Nat × Nat)) :=
  [(15, (8, 2)), (14, (8, 2)), (13, (8, 2)), (12, (8, 2)),
   (11, (8, 2)), (10, (8, 2)), (9, (8, 2)),
   (8, (8, 1)), (7, (7, 1)), (6, (6, 1)),
   (5, (5, 1)), (4, (4, 1)), (3, (3, 1)), (2, (2, 1)), (1, (1, 1))]

/-- Embedding of `GRID_LAYOUTS.get(n, (8, 2))`. -/
def gridLayoutGet (n : ℤ) : Nat × Nat :=
  ((GRID_LAYOUTS.find? fun p => p.1 == n).map Prod.snd).getD (8, 2)

/-- Python `int(x)`: truncation toward zero. -/
def pyTrunc (q : ℚ) : ℤ :=
  if 0 ≤ q then ⌊q⌋ else ⌈q⌉

/-- Embedding of `InGameOverlay._calculate_card_positions(num_cards, window_rect)`.
Window rectangles are integer screen coordinates `(left, top, right,
bottom)`; the fractional arithmetic of the source is carried out in ℚ. -/
def _calculate_card_positions (calib : Calibration) (num_cards : ℤ)
    (window_rect : ℤ × ℤ × ℤ × ℤ) : List (ℤ × ℤ) :=
  if num_cards ≤ 0 ∨ 15 < num_cards then []
  else
    let left := window_rect.1
    let top := window_rect.2.1
    let right := window_rect.2.2.1
    let bottom := window_rect.2.2.2
    let w : ℤ := right - left
    let h : ℤ := bottom - top
    if w ≤ 0 ∨ h ≤ 0 then []
    else
      let cols := (gridLayoutGet num_cards).1
      let grid_w : ℚ := (calib.ingame_grid_right - calib.ingame_grid_left) * w
      let grid_h : ℚ := (calib.ingame_grid_bottom - calib.ingame_grid_top) * h
      let grid_x0 : ℚ := (left : ℚ) + calib.ingame_grid_left * w
      let grid_y0 : ℚ := (top : ℚ) + calib.ingame_grid_top * h
      let cell_w : ℚ := grid_w / 8
      let cell_h : ℚ := grid_h / 2
      let y_offset : ℚ := cell_h * (8 / 100)
      (List.range num_cards.toNat).map fun idx =>
        let row_idx := idx / cols
        let col_idx := idx % cols
        let cx : ℚ := grid_x0 + (col_idx : ℚ) * cell_w + cell_w / 2
        let cy : ℚ := grid_y0 + (row_idx : ℚ) * cell_h + y_offset
        (pyTrunc (cx - 15), pyTrunc cy)

/-- Embedding of `_tier_colors(rating, is_best)`: (background, foreground) colors. -/
def _tier_colors (rating : ℚ) (is_best : Bool) : String × String :=
  if is_best then ("#FFD700", "#000000")
  else if 90 ≤ rating then ("#FF4500", "#FFFFFF")
  else if 75 ≤ rating then ("#22AA22", "#FFFFFF")
  else if 65 ≤ rating then ("#3399DD", "#FFFFFF")
  else if 58 ≤ rating then ("#5577AA", "#FFFFFF")
  else if 52 ≤ rating then ("#778899", "#FFFFFF")
  else if 45 ≤ rating then ("#888888", "#FFFFFF")
  else if 30 ≤ rating then ("#AA4444", "#FFFFFF")
  else ("#553333", "#998888")

/-- One `RatingBadge` window: visibility together with the position, rating,
best-in-pack flag and color pair last written by `show`. -/
structure BadgeSlot where
  visible : Bool
  x : ℤ
  y : ℤ
  rating : ℚ
  is_best : Bool
  bg : String
  fg : String
deriving DecidableEq

/-- A freshly constructed `RatingBadge`: withdrawn, empty label. -/
def newBadge : BadgeSlot :=
  ⟨false, 0, 0, 0, false, "", ""⟩

/-- Embedding of `RatingBadge.show(x, y, rating, is_best)`. -/
def showBadge (b : BadgeSlot) (x y : ℤ) (rating : ℚ) (is_best : Bool) : BadgeSlot :=
  let colors := _tier_colors rating is_best
  { b with visible := true, x := x, y := y, rating := rating,
           is_best := is_best, bg := colors.1, fg := colors.2 }

/-- Embedding of `RatingBadge.hide()`. -/
def hideBadge (b : BadgeSlot) : BadgeSlot :=
  { b with visible := false }

/-- The result of the Win32 window queries for the MTGA window. -/
structure WindowInfo where
  minimized : Bool
  rect : Option (ℤ × ℤ × ℤ × ℤ)
deriving DecidableEq

/-- The external environment of one overlay call: the configuration flag, the
platform, the current MTGA window (if any) and the calibration record. -/
structure Env where
  ingame_overlay_enabled : Bool
  is_win32 : Bool
  mtga_window : Option WindowInfo
  calib : Calibration
deriving DecidableEq

/-- The mutable fields of `InGameOverlay`. -/
structure OverlayState where
  badges : List BadgeSlot
  last_pack_cards : List Card
  last_ratings : List (String × ℚ)
  last_pick_number : ℤ
  last_mtga_rect : Option (ℤ × ℤ × ℤ × ℤ)
deriving DecidableEq

/-- Python dict lookup `d.get(k)` for a dict with unique keys, modelled as an
association list. -/
def lookupStr {α : Type} (d : List (String × α)) (k : String) : Option α :=
  (d.find? fun p => p.1 == k).map Prod.snd

/-- Python `max(iterable, default=0)`. -/
def pyMaxD (l : List ℚ) : ℚ :=
  match l with
  | [] => 0
  | x :: xs => xs.foldl max x

/-- Embedding of `InGameOverlay._hide_all()`. -/
def hide_all_slots (st : OverlayState) : OverlayState :=
  { st with badges := st.badges.map hideBadge }

/-- The badge-assignment loop at the end of `_position_badges` (reached once
every precondition holds): grow the badge pool to `num_cards`, show one badge
per (position, card rating) pair with the best-in-pack flag
`rating == best_rating and rating > 0`, and hide the badges beyond
`num_cards`.  `card_ratings` and `positions` both have length `num_cards`
at every call site. -/
def apply_badges (st : OverlayState) (positions : List (ℤ × ℤ))
    (card_ratings : List (String × ℚ)) : OverlayState :=
  let num_cards := card_ratings.length
  let grown := st.badges ++ List.replicate (num_cards - st.badges.length) newBadge
  let best_rating := pyMaxD (card_ratings.map Prod.snd)
  let shown := List.zipWith
    (fun (pc : (ℤ × ℤ) × (String × ℚ)) b =>
      showBadge b pc.1.1 pc.1.2 pc.2.2
        (decide (pc.2.2 = best_rating ∧ 0 < pc.2.2)))
    (positions.zip card_ratings) grown
  let hidden := (grown.drop num_cards).map hideBadge
  { st with badges := shown ++ hidden }

/-- Embedding of `InGameOverlay._position_badges()`: reposition badges from the cached
state, hiding everything on any failure. -/
def _position_badges (env : Env) (st : OverlayState) : OverlayState :=
  let pack_cards := if st.last_pack_cards.isEmpty then [] else mtga_sort st.last_pack_cards
  let ratings_dict := st.last_ratings
  if pack_cards.isEmpty || ratings_dict.isEmpty then hide_all_slots st
  else
    match env.mtga_window with
    | none => hide_all_slots st
    | some win =>
      if win.minimized then hide_all_slots st
      else
        match win.rect with
        | none => hide_all_slots st
        | some rect =>
          let st1 := { st with last_mtga_rect := some rect }
          let num_cards := pack_cards.length
          let positions := _calculate_card_positions env.calib (num_cards : ℤ) rect
          if positions.length ≠ num_cards then hide_all_slots st1
          else
            apply_badges st1 positions
              (pack_cards.map fun card =>
                (card.name, (lookupStr ratings_dict card.name).getD 0))

/-- Embedding of `InGameOverlay.update(pack_cards, ratings_dict, pick_number)`. -/
def overlay_update (env : Env) (st : OverlayState) (pack_cards : List Card)
    (ratings_dict : List (String × ℚ)) (pick_number : ℤ) : OverlayState :=
  if !env.ingame_overlay_enabled then hide_all_slots st
  else if !env.is_win32 then st
  else
    _position_badges env
      { st with last_pack_cards := pack_cards, last_ratings := ratings_dict,
                last_pick_number := pick_number }

/-- One cadence tick of `InGameOverlay._poll_tick` (the re-scheduling of the
next tick is external). -/
def _poll_tick (env : Env) (st : OverlayState) : OverlayState :=
  if env.ingame_overlay_enabled && !st.last_pack_cards.isEmpty
      && !st.last_ratings.isEmpty then
    _position_badges env st
  else st

/-- The sorted pack a successful `_position_badges` works on. -/
def sortedPack (st : OverlayState) : List Card :=
  mtga_sort st.last_pack_cards

/-- The `card_ratings` list built by `_position_badges`: the name of each
card of the sorted pack together with its rating, defaulting to 0 when the
name is absent from the ratings dict. -/
def packRatingPairs (st : OverlayState) : List (String × ℚ) :=
  (sortedPack st).map fun card => (card.name, (lookupStr st.last_ratings card.name).getD 0)

/-- The `best_rating` value of `_position_badges`. -/
def packBest (st : OverlayState) : ℚ :=
  pyMaxD ((packRatingPairs st).map Prod.snd)

/-- The rating assigned to badge slot `i` by `_position_badges`. -/
def slotRating (st : OverlayState) (i : Nat) : ℚ :=
  ((packRatingPairs st).getD i ("", 0)).2

/-- The source default calibration fractions. -/
def defaultCalibration : Calibration :=
  ⟨16/100, 826/1000, 32/100, 654/1000⟩

/-- Concrete cards, window, environments and overlay states used to
instantiate the overlay theorems. -/
def rareA : Card := ⟨"A", some "rare", [], [], none⟩

def commonB : Card := ⟨"B", some "common", [], [], none⟩

def locatedWindow : WindowInfo := ⟨false, some (0, 0, 800, 600)⟩

def onEnv : Env := ⟨true, true, some locatedWindow, defaultCalibration⟩

def offEnv : Env := ⟨false, true, some locatedWindow, defaultCalibration⟩

def tieState : OverlayState := ⟨[], [rareA, commonB], [("A", 5), ("B", 5)], 1, none⟩

def unratedState : OverlayState := ⟨[], [rareA, commonB], [("A", 80)], 1, none⟩

def visibleState : OverlayState :=
  ⟨[⟨true, 10, 10, 50, false, "#888888", "#FFFFFF"⟩], [rareA], [("A", 50)], 3, none⟩

/-- Outcome of `os.path.exists` plus `ort.InferenceSession` for one model
file: the file is missing, loading raises (caught in the source), or a
session (identified by a number) is produced. -/
inductive LoadResult where
  | missing : LoadResult
  | loadError : LoadResult
  | ok : Nat → LoadResult
deriving DecidableEq

/-- The filesystem / runtime collaborator of the ML module: what loading the
ONNX file for a (set, mode) pair yields, and what reading the card-name CSV
for a set yields (`none` covers both a missing file and a parse failure,
which the source treats identically). -/
structure ModelStore where
  onnx_file : String → String → LoadResult
  cards_csv : String → Option (List String)

/-- The caches of `MLModelManager`: `_sessions` and `_cardnames`. -/
structure MLModelManager where
  sessions : List (String × Nat)
  cardnames : List (String × List String)
deriving DecidableEq

/-- The mode-fallback loop body of `MLModelManager.get_model`: try each mode
in turn; a missing file falls through to the next mode, a load failure
returns `None` immediately, success caches the session under `cache_key`. -/
def tryLoadModes (store : ModelStore) (mm : MLModelManager)
    (cache_key set_code : String) : List String → Option Nat × MLModelManager
  | [] => (none, mm)
  | m :: rest =>
    match store.onnx_file set_code m with
    | .missing => tryLoadModes store mm cache_key set_code rest
    | .loadError => (none, mm)
    | .ok s => (some s, { mm with sessions := mm.sessions ++ [(cache_key, s)] })

/-- Embedding of `MLModelManager.get_model(set_code, mode)`: cached lookup, else try the
requested mode with the one-directional Premier→PickTwo fallback. -/
def get_model (store : ModelStore) (onnx_available : Bool) (mm : MLModelManager)
    (set_code mode : String) : Option Nat × MLModelManager :=
  if !onnx_available then (none, mm)
  else
    let cache_key := set_code ++ "_" ++ mode
    match lookupStr mm.sessions cache_key with
    | some s => (some s, mm)
    | none =>
      let modes_to_try := if mode = "Premier" then [mode, "PickTwo"] else [mode]
      tryLoadModes store mm cache_key set_code modes_to_try

/-- Embedding of `MLModelManager.get_cardnames(set_code)`: cached lookup, else read the
CSV, caching only on success. -/
def get_cardnames (store : ModelStore) (mm : MLModelManager) (set_code : String) :
    Option (List String) × MLModelManager :=
  match lookupStr mm.cardnames set_code with
  | some names => (some names, mm)
  | none =>
    match store.cards_csv set_code with
    | none => (none, mm)
    | some names => (some names, { mm with cardnames := mm.cardnames ++ [(set_code, names)] })

/-- Round to the nearest integer, ties to even (the rounding of Python
`round`). -/
def round_half_even (q : ℚ) : ℤ :=
  let f := ⌊q⌋
  if q - f < 1 / 2 then f
  else if 1 / 2 < q - f then f + 1
  else if f % 2 = 0 then f else f + 1

/-- Python `round(x, 1)`. -/
def pyRound1 (q : ℚ) : ℚ :=
  (round_half_even (q * 10) : ℚ) / 10

/-- The mutable fields of `MLRatingCalculator`. -/
structure MLRatingCalculator where
  mm : MLModelManager
  current_ratings : List (String × ℚ)
  current_set : String
  current_mode : String
deriving DecidableEq

/-- The collection vector of `compute_ratings`: one slot per vocabulary
entry, counting occurrences of each pool name at the first index of that
name (`cardnames.index(name)`); names absent from the vocabulary are
ignored. -/
def collectionVector (cardnames pool_names : List String) : List ℚ :=
  pool_names.foldl
    (fun v name =>
      if cardnames.contains name then
        let idx := cardnames.findIdx (· == name)
        v.set idx (v.getD idx 0 + 1)
      else v)
    (List.replicate cardnames.length 0)

/-- Embedding of `MLRatingCalculator.compute_ratings(pool_names, set_code, mode)`.

The ONNX forward pass is the external parameter `infer` (session,
collection vector, pack vector ↦ raw scores); `none` models an inference
call that raises (caught in the source).  The logistic normalization
`100 / (1 + exp(-1.2 (x - mean) / std))` of the positive-deviation branch is
real-valued and is modelled by the abstract parameter `sig` applied to the
raw score, the mean and the population variance; the branch condition
`std > 0` is equivalent to `variance > 0` and is modelled on the variance.
An output vector shorter than the vocabulary would raise an IndexError in
the source, caught by the same handler, hence the length guard. -/
def compute_ratings (store : ModelStore) (onnx_available : Bool)
    (infer : Nat → List ℚ → List ℚ → Option (List ℚ))
    (sig : ℚ → ℚ → ℚ → ℚ)
    (rc : MLRatingCalculator) (pool_names : List String) (set_code mode : String) :
    List (String × ℚ) × MLRatingCalculator :=
  if !onnx_available then ([], rc)
  else
    match get_model store onnx_available rc.mm set_code mode with
    | (none, mm1) => ([], { rc with mm := mm1 })
    | (some session, mm1) =>
      match get_cardnames store mm1 set_code with
      | (none, mm2) => ([], { rc with mm := mm2 })
      | (some cardnames, mm2) =>
        let calc1 := { rc with mm := mm2 }
        let collection_vector := collectionVector cardnames pool_names
        let pack_vector : List ℚ := List.replicate cardnames.length 1
        match infer session collection_vector pack_vector with
        | none => ([], calc1)
        | some raw_scores =>
          let mean : ℚ := raw_scores.sum / (raw_scores.length : ℚ)
          let variance : ℚ :=
            (raw_scores.map fun x => (x - mean) ^ 2).sum / (raw_scores.length : ℚ)
          let ratings :=
            if 0 < variance then raw_scores.map fun x => sig x mean variance
            else raw_scores.map fun _ => (50 : ℚ)
          if cardnames.length ≤ ratings.length then
            let result := (cardnames.zip ratings).map fun p => (p.1, pyRound1 p.2)
            (result, { calc1 with current_ratings := result, current_set := set_code,
                                  current_mode := mode })
          else ([], calc1)

/-- Concrete model stores, inference stub and calculator state used to
instantiate the rating-engine theorems. -/
def wStore : ModelStore := ⟨fun _ _ => .ok 0, fun _ => some ["a", "b"]⟩

def emptyStore : ModelStore := ⟨fun _ _ => .missing, fun _ => none⟩

def wInfer : Nat → List ℚ → List ℚ → Option (List ℚ) := fun _ _ _ => some [7, 7]

def wSig : ℚ → ℚ → ℚ → ℚ := fun _ _ _ => 0

def wCalc : MLRatingCalculator := ⟨⟨[], []⟩, [], "", ""⟩

end MTGAOverlay

namespace MTGAOverlay

theorem keyLE_trans (a b c : SortKey) (h1 : keyLE a b = true) (h2 : keyLE b c = true) :
    keyLE a c = true := by
  simp only [keyLE, decide_eq_true_eq] at *
  exact le_trans h1 h2

theorem keyLE_total (a b : SortKey) : keyLE a b || keyLE b a := by
  simp only [keyLE, Bool.or_eq_true, decide_eq_true_eq]
  exact le_total _ _

theorem cardLE_trans (a b c : Card) (h1 : cardLE a b = true) (h2 : cardLE b c = true) :
    cardLE a c = true :=
  keyLE_trans _ _ _ h1 h2

theorem cardLE_total (a b : Card) : cardLE a b || cardLE b a :=
  keyLE_total _ _

theorem color_table_le (i : Nat) : _COLOR_SORT_TABLE i ≤ 31 := by
  unfold _COLOR_SORT_TABLE
  split <;> omega

theorem rarity_le (r : String) : _RARITY_ORDER r ≤ 3 := by
  unfold _RARITY_ORDER
  split <;> try omega
  split <;> try omega
  split <;> try omega
  split <;> omega

theorem keyLE_digit_pair (r l c : Nat) (n1 n2 : String) (hr : r ≤ 3) (hl : l ≤ 1)
    (hc : c ≤ 31) :
    keyLE (r, l, c, n2) (3, 1, 32, n1) = true ∧
    keyLE (3, 1, 32, n1) (r, l, c, n2) = false := by
  constructor
  · simp only [keyLE, decide_eq_true_eq, Prod.Lex.le_iff]
    rcases Nat.lt_or_ge r 3 with h | h
    · exact Or.inl h
    · refine Or.inr ⟨le_antisymm hr h, ?_⟩
      rcases Nat.lt_or_ge l 1 with h2 | h2
      · exact Or.inl h2
      · exact Or.inr ⟨le_antisymm hl h2, Or.inl (by omega)⟩
  · simp only [keyLE, decide_eq_false_iff_not, Prod.Lex.le_iff]
    rintro (h | ⟨h1, h2 | ⟨h3, h4 | ⟨h5, h6⟩⟩⟩) <;> omega

/-- C2: the sort key of a digit-only-named card is strictly greater than every
key of every non-digit-named card, regardless of rarity, types or colors, and hence
in the sorted pack no digit-named card ever precedes a non-digit-named one
(once a digit-named card occurs, everything after it is digit-named). -/
theorem digit_named_cards_sort_last :
    (∀ c1 c2 : Card, pyIsDigit c1.name = true → pyIsDigit c2.name = false →
        keyLE (mtga_draft_sort_key c2) (mtga_draft_sort_key c1) = true ∧
        keyLE (mtga_draft_sort_key c1) (mtga_draft_sort_key c2) = false) ∧
    (∀ l : List Card,
        (mtga_sort l).Pairwise fun a b =>
          pyIsDigit a.name = true → pyIsDigit b.name = true) := by
  have main : ∀ c1 c2 : Card, pyIsDigit c1.name = true → pyIsDigit c2.name = false →
      keyLE (mtga_draft_sort_key c2) (mtga_draft_sort_key c1) = true ∧
      keyLE (mtga_draft_sort_key c1) (mtga_draft_sort_key c2) = false := by
    intro c1 c2 h1 h2
    have k1 : mtga_draft_sort_key c1 = (3, 1, 32, c1.name) := by
      rw [mtga_draft_sort_key, if_pos h1]
    have k2 : mtga_draft_sort_key c2 =
        (_RARITY_ORDER (c2.rarity.getD "common"),
         if c2.types.contains "Land" = true then 1 else 0,
         _COLOR_SORT_TABLE (_card_color_flags c2 &&& 31), c2.name) := by
      rw [mtga_draft_sort_key, if_neg (by simp [h2])]
    rw [k1, k2]
    exact keyLE_digit_pair _ _ _ _ _ (rarity_le _) (by split <;> omega) (color_table_le _)
  refine ⟨main, fun l => ?_⟩
  have hs := List.sorted_mergeSort cardLE_trans cardLE_total l
  refine List.Pairwise.imp ?_ hs
  intro a b hab
  intro hda
  by_contra hdb
  have hdb2 : pyIsDigit b.name = false := by
    revert hdb
    cases pyIsDigit b.name <;> simp
  have hfalse := (main a b hda hdb2).2
  have hab2 : cardLE a b = true := hab
  rw [cardLE, hfalse] at hab2
  exact Bool.false_ne_true hab2

theorem digit_named_cards_sort_last_witness :
    keyLE (mtga_draft_sort_key ⟨"Opt", some "rare", [], ["U"], none⟩)
        (mtga_draft_sort_key ⟨"71668", none, [], [], none⟩) = true ∧
    keyLE (mtga_draft_sort_key ⟨"71668", none, [], [], none⟩)
        (mtga_draft_sort_key ⟨"Opt", some "rare", [], ["U"], none⟩) = false :=
  digit_named_cards_sort_last.1 ⟨"71668", none, [], [], none⟩
    ⟨"Opt", some "rare", [], ["U"], none⟩ (by decide) (by decide)

/-- C7: the pack sort is idempotent — on a sequence that is already sorted by
the draft-pack key it is the identity, and hence sorting twice equals sorting
once. -/
theorem pack_sort_idempotent :
    (∀ l : List Card, l.Pairwise (fun a b => cardLE a b = true) → mtga_sort l = l) ∧
    (∀ l : List Card, mtga_sort (mtga_sort l) = mtga_sort l) := by
  have h1 : ∀ l : List Card, l.Pairwise (fun a b => cardLE a b = true) → mtga_sort l = l :=
    fun l hl => List.mergeSort_of_sorted hl
  exact ⟨h1, fun l => h1 _ (List.sorted_mergeSort cardLE_trans cardLE_total l)⟩

theorem pack_sort_idempotent_witness :
    mtga_sort [⟨"Opt", some "rare", [], ["U"], none⟩] =
      [⟨"Opt", some "rare", [], ["U"], none⟩] :=
  pack_sort_idempotent.1 [⟨"Opt", some "rare", [], ["U"], none⟩]
    (List.pairwise_singleton _ _)

theorem calc_positions_length (calib : Calibration) (count : ℤ) (rect : ℤ × ℤ × ℤ × ℤ)
    (h1 : 1 ≤ count) (h2 : count ≤ 15) (h3 : 0 < rect.2.2.1 - rect.1)
    (h4 : 0 < rect.2.2.2 - rect.2.1) :
    (_calculate_card_positions calib count rect).length = count.toNat := by
  simp only [_calculate_card_positions]
  rw [if_neg (by omega), if_neg (by omega)]
  simp

/-- C3: the position calculator returns exactly `count` coordinate pairs for
`count` in [1,15] on a window of positive width and height, and the empty
list whenever `count` is out of range or the window has non-positive width
or height. -/
theorem positions_count_contract :
    ∀ (calib : Calibration) (count : ℤ) (rect : ℤ × ℤ × ℤ × ℤ),
      ((1 ≤ count ∧ count ≤ 15 ∧ 0 < rect.2.2.1 - rect.1 ∧ 0 < rect.2.2.2 - rect.2.1) →
        (_calculate_card_positions calib count rect).length = count.toNat) ∧
      ((count ≤ 0 ∨ 15 < count ∨ rect.2.2.1 - rect.1 ≤ 0 ∨ rect.2.2.2 - rect.2.1 ≤ 0) →
        _calculate_card_positions calib count rect = []) := by
  intro calib count rect
  constructor
  · rintro ⟨h1, h2, h3, h4⟩
    exact calc_positions_length calib count rect h1 h2 h3 h4
  · intro h
    simp only [_calculate_card_positions]
    by_cases hc : count ≤ 0 ∨ 15 < count
    · rw [if_pos hc]
    · rw [if_neg hc, if_pos (by omega)]

theorem positions_count_contract_witness :
    (1 ≤ (5 : ℤ) ∧ (5 : ℤ) ≤ 15 ∧ 0 < (1100 : ℤ) - 100 ∧ 0 < (600 : ℤ) - 100) ∧
    (_calculate_card_positions ⟨16/100, 826/1000, 32/100, 654/1000⟩ 5
      (100, 100, 1100, 600)).length = (5 : ℤ).toNat :=
  ⟨by norm_num,
   (positions_count_contract ⟨16/100, 826/1000, 32/100, 654/1000⟩ 5
       (100, 100, 1100, 600)).1 (by norm_num)⟩

/-- C4: for counts 1..8 every position lies on row 0 with column index equal
to the card index; for counts 9..15 card `i` lies at row `i / 8`, column
`i % 8`; in both cases the cell sizes are the calibrated grid width divided
by 8 and the calibrated grid height divided by 2, independent of the number
of populated columns or rows. -/
theorem positions_grid_shape :
    ∀ (calib : Calibration) (count : ℤ) (rect : ℤ × ℤ × ℤ × ℤ),
      (1 ≤ count → count ≤ 8 → 0 < rect.2.2.1 - rect.1 → 0 < rect.2.2.2 - rect.2.1 →
        _calculate_card_positions calib count rect =
          (List.range count.toNat).map fun (idx : Nat) =>
            let w : ℚ := ((rect.2.2.1 - rect.1 : ℤ) : ℚ)
            let h : ℚ := ((rect.2.2.2 - rect.2.1 : ℤ) : ℚ)
            let cell_w : ℚ := (calib.ingame_grid_right - calib.ingame_grid_left) * w / 8
            let cell_h : ℚ := (calib.ingame_grid_bottom - calib.ingame_grid_top) * h / 2
            (pyTrunc ((rect.1 : ℚ) + calib.ingame_grid_left * w + (idx : ℚ) * cell_w
                + cell_w / 2 - 15),
             pyTrunc ((rect.2.1 : ℚ) + calib.ingame_grid_top * h + (0 : ℚ) * cell_h
                + cell_h * (8 / 100)))) ∧
      (9 ≤ count → count ≤ 15 → 0 < rect.2.2.1 - rect.1 → 0 < rect.2.2.2 - rect.2.1 →
        _calculate_card_positions calib count rect =
          (List.range count.toNat).map fun (idx : Nat) =>
            let w : ℚ := ((rect.2.2.1 - rect.1 : ℤ) : ℚ)
            let h : ℚ := ((rect.2.2.2 - rect.2.1 : ℤ) : ℚ)
            let cell_w : ℚ := (calib.ingame_grid_right - calib.ingame_grid_left) * w / 8
            let cell_h : ℚ := (calib.ingame_grid_bottom - calib.ingame_grid_top) * h / 2
            (pyTrunc ((rect.1 : ℚ) + calib.ingame_grid_left * w + ((idx % 8 : Nat) : ℚ) * cell_w
                + cell_w / 2 - 15),
             pyTrunc ((rect.2.1 : ℚ) + calib.ingame_grid_top * h + ((idx / 8 : Nat) : ℚ) * cell_h
                + cell_h * (8 / 100)))) := by
  intro calib count rect
  constructor
  · intro h1 h2 h3 h4
    simp only [_calculate_card_positions]
    rw [if_neg (by omega), if_neg (by omega)]
    have hcols : (gridLayoutGet count).1 = count.toNat := by
      interval_cases count <;> rfl
    rw [hcols]
    refine List.map_congr_left ?_
    intro idx hidx
    rw [List.mem_range] at hidx
    rw [Nat.mod_eq_of_lt hidx, Nat.div_eq_of_lt hidx, Nat.cast_zero]
  · intro h1 h2 h3 h4
    simp only [_calculate_card_positions]
    rw [if_neg (by omega), if_neg (by omega)]
    have hcols : (gridLayoutGet count).1 = 8 := by
      interval_cases count <;> rfl
    rw [hcols]

theorem positions_grid_shape_witness :
    (_calculate_card_positions ⟨16/100, 826/1000, 32/100, 654/1000⟩ 8
        (0, 0, 800, 600) =
      (List.range (8 : ℤ).toNat).map fun (idx : Nat) =>
        let w : ℚ := ((800 - 0 : ℤ) : ℚ)
        let h : ℚ := ((600 - 0 : ℤ) : ℚ)
        let cell_w : ℚ := ((826 : ℚ)/1000 - 16/100) * w / 8
        let cell_h : ℚ := ((654 : ℚ)/1000 - 32/100) * h / 2
        (pyTrunc (((0 : ℤ) : ℚ) + 16/100 * w + (idx : ℚ) * cell_w + cell_w / 2 - 15),
         pyTrunc (((0 : ℤ) : ℚ) + 32/100 * h + (0 : ℚ) * cell_h + cell_h * (8 / 100)))) ∧
    (_calculate_card_positions ⟨16/100, 826/1000, 32/100, 654/1000⟩ 9
        (0, 0, 800, 600) =
      (List.range (9 : ℤ).toNat).map fun (idx : Nat) =>
        let w : ℚ := ((800 - 0 : ℤ) : ℚ)
        let h : ℚ := ((600 - 0 : ℤ) : ℚ)
        let cell_w : ℚ := ((826 : ℚ)/1000 - 16/100) * w / 8
        let cell_h : ℚ := ((654 : ℚ)/1000 - 32/100) * h / 2
        (pyTrunc (((0 : ℤ) : ℚ) + 16/100 * w + ((idx % 8 : Nat) : ℚ) * cell_w
            + cell_w / 2 - 15),
         pyTrunc (((0 : ℤ) : ℚ) + 32/100 * h + ((idx / 8 : Nat) : ℚ) * cell_h
            + cell_h * (8 / 100)))) :=
  ⟨(positions_grid_shape ⟨16/100, 826/1000, 32/100, 654/1000⟩ 8 (0, 0, 800, 600)).1
      (by norm_num) (by norm_num) (by norm_num) (by norm_num),
   (positions_grid_shape ⟨16/100, 826/1000, 32/100, 654/1000⟩ 9 (0, 0, 800, 600)).2
      (by norm_num) (by norm_num) (by norm_num) (by norm_num)⟩

theorem position_badges_success (env : Env) (st : OverlayState) (win : WindowInfo)
    (rect : ℤ × ℤ × ℤ × ℤ)
    (hpack : st.last_pack_cards ≠ [])
    (hrat : st.last_ratings ≠ [])
    (hwin : env.mtga_window = some win)
    (hmin : win.minimized = false)
    (hrect : win.rect = some rect)
    (hlen : (_calculate_card_positions env.calib
        ((sortedPack st).length : ℤ) rect).length = (sortedPack st).length) :
    _position_badges env st =
      apply_badges { st with last_mtga_rect := some rect }
        (_calculate_card_positions env.calib ((sortedPack st).length : ℤ) rect)
        (packRatingPairs st) := by
  have hp : st.last_pack_cards.isEmpty = false := by
    rw [List.isEmpty_eq_false]
    exact hpack
  have hr : st.last_ratings.isEmpty = false := by
    rw [List.isEmpty_eq_false]
    exact hrat
  have hps : (mtga_sort st.last_pack_cards).isEmpty = false := by
    rw [List.isEmpty_eq_false]
    intro hnil
    apply hpack
    have h2 := congrArg List.length hnil
    rw [mtga_sort, List.length_mergeSort] at h2
    exact List.length_eq_zero.mp h2
  rw [sortedPack] at hlen
  simp only [_position_badges, hp, hps, hr, hwin, hmin, hrect, Bool.false_eq_true,
    if_false, Bool.or_self, hlen, ne_eq, not_true_eq_false, sortedPack, packRatingPairs]

theorem apply_badges_slot (st : OverlayState) (positions : List (ℤ × ℤ))
    (card_ratings : List (String × ℚ))
    (hlen : positions.length = card_ratings.length)
    (i : Nat) (hi : i < card_ratings.length) :
    ∃ b : BadgeSlot,
      (apply_badges st positions card_ratings).badges[i]? =
        some (showBadge b (positions.getD i (0, 0)).1 (positions.getD i (0, 0)).2
          (card_ratings.getD i ("", 0)).2
          (decide ((card_ratings.getD i ("", 0)).2 = pyMaxD (card_ratings.map Prod.snd)
            ∧ 0 < (card_ratings.getD i ("", 0)).2))) := by
  have hpi : i < positions.length := by omega
  have hglen : card_ratings.length ≤
      (st.badges ++ List.replicate (card_ratings.length - st.badges.length) newBadge).length := by
    simp
    omega
  have hgi : i <
      (st.badges ++ List.replicate (card_ratings.length - st.badges.length) newBadge).length := by
    omega
  refine ⟨(st.badges ++ List.replicate (card_ratings.length - st.badges.length) newBadge).get
    ⟨i, hgi⟩, ?_⟩
  simp only [apply_badges]
  rw [List.getElem?_append_left (by simp [List.length_zipWith, List.length_zip, hlen]; omega)]
  simp [List.getElem?_zipWith, List.zip, hpi, hi, hgi, List.getElem?_eq_getElem,
    List.getD_eq_getElem?_getD]
  rw [List.getElem?_eq_getElem hgi]

theorem tie_pack_sorted : mtga_sort [rareA, commonB] = [rareA, commonB] := by
  apply List.mergeSort_of_sorted
  constructor
  · intro b hb
    rw [List.mem_singleton] at hb
    subst hb
    decide
  · exact List.pairwise_singleton _ _

/-- C1 (amended): during a successful reposition, a badge slot carries the
best-in-pack highlight exactly when its rating equals the maximum rating of
the pack and is strictly positive.  All slots tied at a positive maximum are
marked — possibly more than one — and no slot is marked when the maximum is
not positive; in particular a slot whose rating is exactly 0 is never
marked. -/
theorem best_in_pack_marking (env : Env) (st : OverlayState) (win : WindowInfo)
    (rect : ℤ × ℤ × ℤ × ℤ)
    (hpack : st.last_pack_cards ≠ [])
    (hrat : st.last_ratings ≠ [])
    (hwin : env.mtga_window = some win)
    (hmin : win.minimized = false)
    (hrect : win.rect = some rect)
    (hlen : (_calculate_card_positions env.calib
        ((sortedPack st).length : ℤ) rect).length = (sortedPack st).length)
    (i : Nat) (hi : i < (sortedPack st).length) :
    ∃ b : BadgeSlot,
      ((_position_badges env st).badges)[i]? = some b ∧ b.visible = true ∧
      (b.is_best = true ↔ (slotRating st i = packBest st ∧ 0 < slotRating st i)) := by
  rw [position_badges_success env st win rect hpack hrat hwin hmin hrect hlen]
  have hlen2 : (_calculate_card_positions env.calib ((sortedPack st).length : ℤ) rect).length
      = (packRatingPairs st).length := by
    rw [hlen, packRatingPairs, List.length_map]
  have hi2 : i < (packRatingPairs st).length := by
    rw [packRatingPairs, List.length_map]
    exact hi
  obtain ⟨b0, hb⟩ := apply_badges_slot { st with last_mtga_rect := some rect }
    (_calculate_card_positions env.calib ((sortedPack st).length : ℤ) rect)
    (packRatingPairs st) hlen2 i hi2
  refine ⟨_, hb, by simp [showBadge], ?_⟩
  simp only [showBadge]
  rw [slotRating, packBest]
  simp [decide_eq_true_eq]

theorem tie_sorted_len : (sortedPack tieState).length = 2 := by
  simp [sortedPack, mtga_sort, tieState]

theorem tie_positions_length :
    (_calculate_card_positions onEnv.calib ((sortedPack tieState).length : ℤ)
      (0, 0, 800, 600)).length = (sortedPack tieState).length := by
  rw [tie_sorted_len]
  have h := calc_positions_length onEnv.calib 2 (0, 0, 800, 600)
    (by norm_num) (by norm_num) (by norm_num) (by norm_num)
  simpa using h

theorem tie_rating_pairs : packRatingPairs tieState = [("A", 5), ("B", 5)] := by
  rw [packRatingPairs, sortedPack]
  have h1 : tieState.last_pack_cards = [rareA, commonB] := rfl
  have h2 : tieState.last_ratings = [("A", 5), ("B", 5)] := rfl
  rw [h1, h2, tie_pack_sorted]
  simp [lookupStr, rareA, commonB]

theorem best_in_pack_marking_witness :
    ∃ b : BadgeSlot,
      ((_position_badges onEnv tieState).badges)[0]? = some b ∧ b.visible = true ∧
      (b.is_best = true ↔
        (slotRating tieState 0 = packBest tieState ∧ 0 < slotRating tieState 0)) := by
  refine best_in_pack_marking onEnv tieState locatedWindow (0, 0, 800, 600)
    (by simp [tieState]) (by simp [tieState]) rfl rfl rfl tie_positions_length 0 ?_
  rw [tie_sorted_len]
  norm_num

theorem best_in_pack_tie_counterexample :
    ((_position_badges onEnv tieState).badges[0]?.map fun b => b.is_best) = some true ∧
    ((_position_badges onEnv tieState).badges[1]?.map fun b => b.is_best) = some true := by
  rw [position_badges_success onEnv tieState locatedWindow (0, 0, 800, 600)
    (by simp [tieState]) (by simp [tieState]) rfl rfl rfl tie_positions_length]
  have hlen2 : (_calculate_card_positions onEnv.calib ((sortedPack tieState).length : ℤ)
      (0, 0, 800, 600)).length = (packRatingPairs tieState).length := by
    rw [tie_positions_length, packRatingPairs, List.length_map]
  have hi0 : 0 < (packRatingPairs tieState).length := by
    rw [tie_rating_pairs]
    norm_num
  have hi1 : 1 < (packRatingPairs tieState).length := by
    rw [tie_rating_pairs]
    norm_num
  obtain ⟨b0, hb0⟩ := apply_badges_slot { tieState with last_mtga_rect := some (0, 0, 800, 600) }
    (_calculate_card_positions onEnv.calib ((sortedPack tieState).length : ℤ) (0, 0, 800, 600))
    (packRatingPairs tieState) hlen2 0 hi0
  obtain ⟨b1, hb1⟩ := apply_badges_slot { tieState with last_mtga_rect := some (0, 0, 800, 600) }
    (_calculate_card_positions onEnv.calib ((sortedPack tieState).length : ℤ) (0, 0, 800, 600))
    (packRatingPairs tieState) hlen2 1 hi1
  rw [hb0, hb1]
  simp only [Option.map_some, showBadge]
  rw [tie_rating_pairs]
  simp [pyMaxD]

/-- C8 (amended): while the enable flag is off a cadence tick is a no-op:
the badges keep their current visibility — they are NOT hidden by the tick —
and the cached pack, ratings and pick number are all left unchanged (badges
are hidden only by the next `update` call).  Because the cache is untouched,
once the flag is enabled again a tick with a nonempty cache runs a full
reposition from the cached data. -/
theorem disabled_tick_is_noop :
    (∀ (env : Env) (st : OverlayState), env.ingame_overlay_enabled = false →
      _poll_tick env st = st) ∧
    (∀ (env : Env) (st : OverlayState), env.ingame_overlay_enabled = true →
      st.last_pack_cards ≠ [] → st.last_ratings ≠ [] →
      _poll_tick env st = _position_badges env st) := by
  constructor
  · intro env st h
    simp [_poll_tick, h]
  · intro env st h1 h2 h3
    simp [_poll_tick, h1, List.isEmpty_eq_false.mpr h2, List.isEmpty_eq_false.mpr h3]

theorem disabled_tick_is_noop_witness :
    _poll_tick offEnv visibleState = visibleState ∧
    _poll_tick onEnv tieState = _position_badges onEnv tieState :=
  ⟨disabled_tick_is_noop.1 offEnv visibleState rfl,
   disabled_tick_is_noop.2 onEnv tieState rfl (by simp [tieState]) (by simp [tieState])⟩

theorem disabled_tick_counterexample :
    _poll_tick offEnv visibleState = visibleState ∧
    ((_poll_tick offEnv visibleState).badges.map fun b => b.visible) = [true] := by
  have h : _poll_tick offEnv visibleState = visibleState := by
    simp [_poll_tick, offEnv]
  refine ⟨h, ?_⟩
  rw [h]
  rfl

/-- C9: an `update` call made while the enable flag is off leaves the cached
pack, ratings and pick number exactly as they were — the new arguments are
discarded, not stored — and every badge is hidden. -/
theorem update_disabled_discards_args (env : Env) (st : OverlayState)
    (pack : List Card) (ratings : List (String × ℚ)) (pick : ℤ)
    (h : env.ingame_overlay_enabled = false) :
    (overlay_update env st pack ratings pick).last_pack_cards = st.last_pack_cards ∧
    (overlay_update env st pack ratings pick).last_ratings = st.last_ratings ∧
    (overlay_update env st pack ratings pick).last_pick_number = st.last_pick_number ∧
    ∀ b ∈ (overlay_update env st pack ratings pick).badges, b.visible = false := by
  have hu : overlay_update env st pack ratings pick = hide_all_slots st := by
    simp [overlay_update, h]
  rw [hu]
  refine ⟨rfl, rfl, rfl, ?_⟩
  intro b hb
  simp only [hide_all_slots, List.mem_map] at hb
  obtain ⟨a, ha, rfl⟩ := hb
  rfl

theorem update_disabled_discards_args_witness :
    (overlay_update offEnv visibleState [commonB] [("B", 9)] 7).last_pack_cards
        = visibleState.last_pack_cards ∧
    (overlay_update offEnv visibleState [commonB] [("B", 9)] 7).last_ratings
        = visibleState.last_ratings ∧
    (overlay_update offEnv visibleState [commonB] [("B", 9)] 7).last_pick_number
        = visibleState.last_pick_number ∧
    ∀ b ∈ (overlay_update offEnv visibleState [commonB] [("B", 9)] 7).badges,
      b.visible = false :=
  update_disabled_discards_args offEnv visibleState [commonB] [("B", 9)] 7 rfl

/-- C10: in a successful reposition, a sorted-pack card whose name is absent
from the ratings dict gets a visible badge with rating 0.0 and the lowest
tier color pair — it is shown, not skipped — and it is never marked
best-in-pack. -/
theorem unrated_card_gets_zero_badge (env : Env) (st : OverlayState) (win : WindowInfo)
    (rect : ℤ × ℤ × ℤ × ℤ)
    (hpack : st.last_pack_cards ≠ [])
    (hrat : st.last_ratings ≠ [])
    (hwin : env.mtga_window = some win)
    (hmin : win.minimized = false)
    (hrect : win.rect = some rect)
    (hlen : (_calculate_card_positions env.calib
        ((sortedPack st).length : ℤ) rect).length = (sortedPack st).length)
    (i : Nat) (hi : i < (sortedPack st).length)
    (hmiss : lookupStr st.last_ratings
        (((sortedPack st).getD i ⟨"", none, [], [], none⟩).name) = none) :
    ∃ b : BadgeSlot,
      ((_position_badges env st).badges)[i]? = some b ∧ b.visible = true ∧
      b.rating = 0 ∧ b.is_best = false ∧ b.bg = "#553333" ∧ b.fg = "#998888" := by
  rw [position_badges_success env st win rect hpack hrat hwin hmin hrect hlen]
  have hlen2 : (_calculate_card_positions env.calib ((sortedPack st).length : ℤ) rect).length
      = (packRatingPairs st).length := by
    rw [hlen, packRatingPairs, List.length_map]
  have hi2 : i < (packRatingPairs st).length := by
    rw [packRatingPairs, List.length_map]
    exact hi
  obtain ⟨b0, hb⟩ := apply_badges_slot { st with last_mtga_rect := some rect }
    (_calculate_card_positions env.calib ((sortedPack st).length : ℤ) rect)
    (packRatingPairs st) hlen2 i hi2
  have hgetd : (sortedPack st).getD i ⟨"", none, [], [], none⟩ = (sortedPack st).get ⟨i, hi⟩ := by
    rw [List.getD_eq_getElem?_getD, List.getElem?_eq_getElem hi, Option.getD_some,
      List.get_eq_getElem]
  rw [hgetd] at hmiss
  have hr0 : ((packRatingPairs st).getD i ("", 0)).2 = 0 := by
    rw [packRatingPairs, List.getD_eq_getElem?_getD,
      List.getElem?_eq_getElem (by rw [List.length_map]; exact hi),
      Option.getD_some, List.getElem_map]
    simp only [List.get_eq_getElem] at hmiss
    simp [hmiss]
  rw [List.getD_eq_getElem?_getD] at hr0
  refine ⟨_, hb, by simp [showBadge], ?_, ?_, ?_, ?_⟩
  · simp [showBadge, hr0]
  · simp [showBadge, hr0]
  · norm_num [showBadge, hr0, _tier_colors]
  · norm_num [showBadge, hr0, _tier_colors]

theorem unrated_sorted : sortedPack unratedState = [rareA, commonB] := by
  rw [sortedPack]
  have h : unratedState.last_pack_cards = [rareA, commonB] := rfl
  rw [h, tie_pack_sorted]

theorem unrated_positions_length :
    (_calculate_card_positions onEnv.calib ((sortedPack unratedState).length : ℤ)
      (0, 0, 800, 600)).length = (sortedPack unratedState).length := by
  rw [unrated_sorted]
  have h := calc_positions_length onEnv.calib 2 (0, 0, 800, 600)
    (by norm_num) (by norm_num) (by norm_num) (by norm_num)
  simpa using h

theorem unrated_card_gets_zero_badge_witness :
    ∃ b : BadgeSlot,
      ((_position_badges onEnv unratedState).badges)[1]? = some b ∧ b.visible = true ∧
      b.rating = 0 ∧ b.is_best = false ∧ b.bg = "#553333" ∧ b.fg = "#998888" := by
  refine unrated_card_gets_zero_badge onEnv unratedState locatedWindow (0, 0, 800, 600)
    (by simp [unratedState]) (by simp [unratedState]) rfl rfl rfl
    unrated_positions_length 1 ?_ ?_
  · rw [unrated_sorted]
    norm_num
  · rw [unrated_sorted]
    simp [lookupStr, commonB, unratedState]

theorem list_sum_const (l : List ℚ) (c : ℚ) (h : ∀ x ∈ l, x = c) :
    l.sum = c * (l.length : ℚ) := by
  induction l with
  | nil => simp
  | cons a t ih =>
    have ha : a = c := h a (by simp)
    have ht : t.sum = c * (t.length : ℚ) := ih fun x hx => h x (by simp [hx])
    simp [ha, ht]
    ring

theorem variance_of_const (l : List ℚ) (c : ℚ) (h : ∀ x ∈ l, x = c) :
    (l.map fun x => (x - l.sum / (l.length : ℚ)) ^ 2).sum / (l.length : ℚ) = 0 := by
  rcases l with _ | ⟨a, t⟩
  · simp
  · have hn : (((a :: t).length : ℚ)) ≠ 0 := by
      simp
      positivity
    have hmean : (a :: t).sum / (((a :: t).length : ℚ)) = c := by
      rw [list_sum_const (a :: t) c h, mul_div_cancel_right₀ c hn]
    have hmap : ((a :: t).map fun x => (x - (a :: t).sum / (((a :: t).length : ℚ))) ^ 2) =
        (a :: t).map fun _ => (0 : ℚ) := by
      refine List.map_congr_left fun x hx => ?_
      rw [hmean, h x hx]
      ring
    rw [hmap]
    simp

theorem pyRound1_50 : pyRound1 50 = 50 := by
  norm_num [pyRound1, round_half_even]

theorem zip_const50 (l1 : List String) (l2 : List ℚ) (h : l1.length ≤ l2.length) :
    (l1.zip (l2.map fun _ => (50 : ℚ))).map (fun p => (p.1, pyRound1 p.2)) =
      l1.map fun n => (n, (50 : ℚ)) := by
  induction l1 generalizing l2 with
  | nil => simp
  | cons a t ih =>
    rcases l2 with _ | ⟨b, t2⟩
    · simp at h
    · simp only [List.map_cons, List.zip_cons_cons, pyRound1_50]
      rw [ih t2 (by simpa using h)]

/-- C5: when resolution and inference succeed and the raw scores are uniform
(population standard deviation zero), every vocabulary name is mapped to
exactly 50.0; and in every successful case the result has exactly one entry
per vocabulary name, in vocabulary order, with every value rounded to one
decimal (an integer multiple of 1/10). -/
theorem compute_ratings_uniform_scores (store : ModelStore)
    (infer : Nat → List ℚ → List ℚ → Option (List ℚ)) (sig : ℚ → ℚ → ℚ → ℚ)
    (rc : MLRatingCalculator) (pool_names : List String) (set_code mode : String)
    (session : Nat) (mm1 mm2 : MLModelManager) (cardnames : List String)
    (raw : List ℚ) (c : ℚ)
    (hgm : get_model store true rc.mm set_code mode = (some session, mm1))
    (hgc : get_cardnames store mm1 set_code = (some cardnames, mm2))
    (hinf : infer session (collectionVector cardnames pool_names)
        (List.replicate cardnames.length 1) = some raw)
    (hraw : cardnames.length ≤ raw.length) :
    ((∀ x ∈ raw, x = c) →
      (compute_ratings store true infer sig rc pool_names set_code mode).1 =
        cardnames.map fun n => (n, (50 : ℚ))) ∧
    ((compute_ratings store true infer sig rc pool_names set_code mode).1.map Prod.fst
        = cardnames ∧
      ∀ p ∈ (compute_ratings store true infer sig rc pool_names set_code mode).1,
        ∃ z : ℤ, p.2 = (z : ℚ) / 10) := by
  constructor
  · intro huni
    simp only [compute_ratings, Bool.not_true, Bool.false_eq_true, if_false, hgm, hgc, hinf]
    rw [variance_of_const raw c huni]
    rw [if_neg (lt_irrefl 0)]
    rw [if_pos (by simpa using hraw)]
    exact zip_const50 cardnames raw hraw
  · simp only [compute_ratings, Bool.not_true, Bool.false_eq_true, if_false, hgm, hgc, hinf]
    have hRlen :
        (if 0 < (raw.map fun x => (x - raw.sum / (raw.length : ℚ)) ^ 2).sum / (raw.length : ℚ)
          then raw.map fun x =>
            sig x (raw.sum / (raw.length : ℚ))
              ((raw.map fun y => (y - raw.sum / (raw.length : ℚ)) ^ 2).sum / (raw.length : ℚ))
          else raw.map fun _ => (50 : ℚ)).length = raw.length := by
      split <;> simp
    rw [if_pos (by rw [hRlen]; exact hraw)]
    constructor
    · rw [List.map_map]
      have hcomp : (Prod.fst ∘ fun p : String × ℚ => (p.1, pyRound1 p.2)) = Prod.fst := rfl
      rw [hcomp, List.map_fst_zip]
      rw [hRlen]
      exact hraw
    · intro p hp
      rw [List.mem_map] at hp
      obtain ⟨q, hq, rfl⟩ := hp
      exact ⟨round_half_even (q.2 * 10), rfl⟩

theorem compute_ratings_uniform_scores_witness :
    (compute_ratings wStore true wInfer wSig wCalc [] "XYZ" "Premier").1 =
      ["a", "b"].map fun n => (n, (50 : ℚ)) :=
  (compute_ratings_uniform_scores wStore wInfer wSig wCalc [] "XYZ" "Premier"
      0 ⟨[("XYZ_Premier", 0)], []⟩ ⟨[("XYZ_Premier", 0)], [("XYZ", ["a", "b"])]⟩
      ["a", "b"] [7, 7] 7 rfl rfl rfl (by norm_num)).1
    (by
      intro x hx
      rcases List.mem_cons.mp hx with h | h
      · exact h
      · simpa using h)

theorem tryLoadModes_none_state (store : ModelStore) (mm : MLModelManager)
    (k s : String) (L : List String)
    (h : (tryLoadModes store mm k s L).1 = none) :
    (tryLoadModes store mm k s L).2 = mm := by
  induction L with
  | nil => rfl
  | cons m rest ih =>
    simp only [tryLoadModes] at h ⊢
    cases hf : store.onnx_file s m with
    | missing =>
      simp only [hf] at h ⊢
      exact ih h
    | loadError =>
      simp only [hf] at h ⊢
    | ok s0 =>
      simp [hf] at h

theorem get_model_none_state (store : ModelStore) (onnx : Bool) (mm : MLModelManager)
    (s m : String) (h : (get_model store onnx mm s m).1 = none) :
    (get_model store onnx mm s m).2 = mm := by
  cases onnx with
  | false => rfl
  | true =>
    simp only [get_model, Bool.not_true, Bool.false_eq_true, if_false] at h ⊢
    cases hl : lookupStr mm.sessions (s ++ "_" ++ m) with
    | some s0 =>
      simp [hl] at h
    | none =>
      simp only [hl] at h ⊢
      exact tryLoadModes_none_state store mm (s ++ "_" ++ m) s _ h

theorem tryLoadModes_some_sessions (store : ModelStore) (mm : MLModelManager)
    (k s : String) (L : List String) (sess : Nat) (mm1 : MLModelManager)
    (h : tryLoadModes store mm k s L = (some sess, mm1)) :
    mm1.sessions = mm.sessions ++ [(k, sess)] := by
  induction L with
  | nil => simp [tryLoadModes] at h
  | cons m rest ih =>
    simp only [tryLoadModes] at h
    cases hf : store.onnx_file s m with
    | missing =>
      simp only [hf] at h
      exact ih h
    | loadError => simp [hf] at h
    | ok s0 =>
      simp only [hf, Prod.mk.injEq, Option.some.injEq] at h
      obtain ⟨h1, h2⟩ := h
      rw [← h2, h1]

theorem get_model_some_cached (store : ModelStore) (mm : MLModelManager) (s m : String)
    (sess : Nat) (mm1 : MLModelManager)
    (h : get_model store true mm s m = (some sess, mm1)) :
    lookupStr mm1.sessions (s ++ "_" ++ m) = some sess := by
  simp only [get_model, Bool.not_true, Bool.false_eq_true, if_false] at h
  cases hl : lookupStr mm.sessions (s ++ "_" ++ m) with
  | some s0 =>
    simp only [hl, Prod.mk.injEq, Option.some.injEq] at h
    obtain ⟨h1, h2⟩ := h
    rw [← h2, hl, h1]
  | none =>
    simp only [hl] at h
    have hs := tryLoadModes_some_sessions store mm (s ++ "_" ++ m) s _ sess mm1 h
    rw [lookupStr, hs, List.find?_append]
    have hfind : mm.sessions.find? (fun p => p.1 == s ++ "_" ++ m) = none := by
      rw [lookupStr] at hl
      rcases hf2 : mm.sessions.find? (fun p => p.1 == s ++ "_" ++ m) with _ | p
      · exact hf2
      · rw [hf2] at hl
        simp at hl
    rw [hfind]
    simp

theorem get_model_cache_hit (store : ModelStore) (mm1 : MLModelManager) (s m : String)
    (sess : Nat) (h : lookupStr mm1.sessions (s ++ "_" ++ m) = some sess) :
    get_model store true mm1 s m = (some sess, mm1) := by
  simp only [get_model, Bool.not_true, Bool.false_eq_true, if_false, h]

theorem get_cardnames_none_state (store : ModelStore) (mm : MLModelManager) (s : String)
    (h : (get_cardnames store mm s).1 = none) :
    (get_cardnames store mm s).2 = mm := by
  simp only [get_cardnames] at h ⊢
  cases hc : lookupStr mm.cardnames s with
  | some names => simp [hc] at h
  | none =>
    simp only [hc] at h ⊢
    cases hcsv : store.cards_csv s with
    | none => simp [hcsv]
    | some names => simp [hcsv] at h

/-- C6: when no artifact or no vocabulary resolves for a context, the rating
computation returns the empty mapping, and calling it again on the resulting
state for the same context returns the empty mapping again.  In the
embedding every failure path is a returned value — `compute_ratings` is a
total function — so no artifact-load or inference failure propagates. -/
theorem compute_ratings_unresolvable (store : ModelStore) (onnx : Bool)
    (infer : Nat → List ℚ → List ℚ → Option (List ℚ)) (sig : ℚ → ℚ → ℚ → ℚ)
    (rc : MLRatingCalculator) (pool_names : List String) (set_code mode : String)
    (h : (get_model store onnx rc.mm set_code mode).1 = none ∨
        (get_cardnames store (get_model store onnx rc.mm set_code mode).2 set_code).1 = none) :
    (compute_ratings store onnx infer sig rc pool_names set_code mode).1 = [] ∧
    (compute_ratings store onnx infer sig
      (compute_ratings store onnx infer sig rc pool_names set_code mode).2
      pool_names set_code mode).1 = [] := by
  cases onnx with
  | false => exact ⟨by simp [compute_ratings], by simp [compute_ratings]⟩
  | true =>
    rcases hgm : get_model store true rc.mm set_code mode with ⟨o, mm1⟩
    cases o with
    | none =>
      have hmm : mm1 = rc.mm := by
        have h2 := get_model_none_state store true rc.mm set_code mode (by rw [hgm])
        rw [hgm] at h2
        exact h2
      subst hmm
      have hc1 : compute_ratings store true infer sig rc pool_names set_code mode
          = ([], { rc with mm := rc.mm }) := by
        simp only [compute_ratings, Bool.not_true, Bool.false_eq_true, if_false, hgm]
      refine ⟨by rw [hc1], ?_⟩
      rw [hc1]
      simp only [compute_ratings, Bool.not_true, Bool.false_eq_true, if_false, hgm]
    | some sess =>
      have hvocab : (get_cardnames store mm1 set_code).1 = none := by
        rcases h with h | h
        · rw [hgm] at h
          simp at h
        · rw [hgm] at h
          exact h
      have hgc2 : get_cardnames store mm1 set_code = (none, mm1) := by
        have h2 := get_cardnames_none_state store mm1 set_code hvocab
        rcases hx : get_cardnames store mm1 set_code with ⟨oc, mmc⟩
        rw [hx] at hvocab h2
        simp only at hvocab h2
        rw [hvocab, h2]
      have hcache := get_model_some_cached store rc.mm set_code mode sess mm1 hgm
      have hgm2 := get_model_cache_hit store mm1 set_code mode sess hcache
      have hc1 : compute_ratings store true infer sig rc pool_names set_code mode
          = ([], { rc with mm := mm1 }) := by
        simp only [compute_ratings, Bool.not_true, Bool.false_eq_true, if_false, hgm, hgc2]
      refine ⟨by rw [hc1], ?_⟩
      rw [hc1]
      simp only [compute_ratings, Bool.not_true, Bool.false_eq_true, if_false, hgm2, hgc2]

theorem compute_ratings_unresolvable_witness :
    (compute_ratings emptyStore true wInfer wSig wCalc [] "XYZ" "Premier").1 = [] ∧
    (compute_ratings emptyStore true wInfer wSig
      (compute_ratings emptyStore true wInfer wSig wCalc [] "XYZ" "Premier").2
      [] "XYZ" "Premier").1 = [] :=
  compute_ratings_unresolvable emptyStore true wInfer wSig wCalc [] "XYZ" "Premier"
    (Or.inl rfl)

end MTGAOverlay
